import Mathlib

/-!
Verification of the pptx2pdf batch converter/encryptor.

A shallow embedding of `src/main.py`: a pipeline that walks a source
directory tree, converts every `.pptx` file to PDF through an external
converter process, mirrors the directory structure under a destination
root, and encrypts each produced PDF in place with a fixed permission
set.

External effects (the subprocess, the filesystem, the PDF library) are
modelled by an oracle `World`; the state the program mutates (created
directories, executed commands, the converted-file list) is passed
explicitly.
-/

/-- Python `str.endswith(suffix)`: case-sensitive suffix test. -/
def pyEndswith (s suffix : String) : Bool :=
  suffix.data.isSuffixOf s.data

/-- Python `str.startswith(prefix)` restricted to what path handling needs. -/
def pyStartswith (s p : String) : Bool :=
  p.data.isPrefixOf s.data

/-- POSIX `os.path.join(a, b)`: `b` wins when absolute, otherwise a `/` is
inserted unless `a` is empty or already ends in `/`. -/
def pyJoin (a b : String) : String :=
  if pyStartswith b "/" then b
  else if a = "" ∨ pyEndswith a "/" then a ++ b
  else a ++ "/" ++ b

/-- Index of the last occurrence of `c` in `l`, or `-1` when absent
(Python `str.rfind`). -/
def rfindIdxAux (c : Char) : List Char → Int → Int → Int
  | [], _, best => best
  | x :: xs, i, best => rfindIdxAux c xs (i + 1) (if x = c then i else best)

/-- Python `str.rfind(c)`. -/
def rfindIdx (l : List Char) (c : Char) : Int :=
  rfindIdxAux c l 0 (-1)

/-- POSIX `os.path.splitext`: split off the extension at the last dot after
the last path separator; a basename consisting only of leading dots up to
that last dot has no extension (dotfiles such as `.pptx` do not split). -/
def splitext (p : String) : String × String :=
  let l := p.data
  let sepIndex := rfindIdx l '/'
  let dotIndex := rfindIdx l '.'
  if sepIndex < dotIndex then
    if ((l.drop (sepIndex + 1).toNat).take (dotIndex - (sepIndex + 1)).toNat).all
        (fun ch => ch = '.') then
      (p, "")
    else (⟨l.take dotIndex.toNat⟩, ⟨l.drop dotIndex.toNat⟩)
  else (p, "")

/-- Split a list of characters on a separator character. -/
def splitOnChar (c : Char) (l : List Char) : List (List Char) :=
  l.foldr
    (fun ch acc =>
      if ch = c then [] :: acc
      else
        match acc with
        | h :: t => (ch :: h) :: t
        | [] => [[ch]])
    [[]]

/-- The non-empty `/`-separated components of a path. -/
def splitComponents (p : String) : List String :=
  ((splitOnChar '/' p.data).map (fun cs => (⟨cs⟩ : String))).filter (fun s => s ≠ "")

/-- Length of the longest common prefix of two component lists
(`os.path.commonprefix` on lists). -/
def commonPrefixLen : List String → List String → Nat
  | x :: xs, y :: ys => if x = y then commonPrefixLen xs ys + 1 else 0
  | _, _ => 0

/-- Join path components with `/`. -/
def joinComponents : List String → String
  | [] => ""
  | [x] => x
  | x :: xs => x ++ "/" ++ joinComponents xs

/-- POSIX `os.path.relpath(path, start)` for already-normalized paths:
drop the common component prefix, climb with `..` for what remains of
`start`, and return `.` when the two coincide. -/
def relpath (path start : String) : String :=
  let pl := splitComponents path
  let sl := splitComponents start
  let i := commonPrefixLen sl pl
  let rel_list := List.replicate (sl.length - i) ".." ++ pl.drop i
  if rel_list = [] then "." else joinComponents rel_list

/-- The chain of directories `os.makedirs(p)` creates: every component
prefix of `p`, ancestors first. -/
def makedirsList (p : String) : List String :=
  let pre := if pyStartswith p "/" then "/" else ""
  let cs := splitComponents p
  (List.range cs.length).map (fun k => pre ++ joinComponents (cs.take (k + 1)))

/-- Record a directory as existing (no effect when already present). -/
def addDir (fs : List String) (d : String) : List String :=
  if d ∈ fs then fs else fs ++ [d]

/-- Model of `os.makedirs(p, exist_ok=True)` over an explicit set of existing
directories: create `p` and all its ancestors, never failing. -/
def makedirs (fs : List String) (p : String) : List String :=
  (makedirsList p).foldl addDir fs

/-- The external world: exit status of a shell command, file existence,
and whether `pikepdf` can open/save a given PDF. -/
structure World where
  exitZero : String → Bool
  isFile : String → Bool
  pdfOk : String → Bool

/-- The command line built at `src/main.py:83`:
`{prefix} --convert-to pdf --outdir "{target_dir}" "{source_file}"`. -/
def convertCommand (pfx target_dir source_file : String) : String :=
  pfx ++ " --convert-to pdf --outdir \"" ++ target_dir ++ "\" \"" ++ source_file ++ "\""

/-- Embedding of `PDFConverter._convert_file` (src/main.py:68-96): run the converter
process and, on zero exit, check that the expected output file exists.
Returns the produced path (or `none`) together with the command that was
executed. -/
def convertFile (w : World) (pfx root file target_dir : String) :
    Option String × String :=
  let source_file := pyJoin root file
  let target_file_pdf := (splitext file).1 ++ ".pdf"
  let target_file := pyJoin target_dir target_file_pdf
  let convert_command := convertCommand pfx target_dir source_file
  (if w.exitZero convert_command then
     if w.isFile target_file then some target_file else none
   else none,
   convert_command)

/-- Converter state threaded through the walk: directories known to
exist, commands executed so far, and the converted-file list. -/
structure ConvState where
  fs : List String
  cmds : List String
  converted : List String
deriving DecidableEq, Repr

/-- The inner loop of `PDFConverter.convert` (src/main.py:61-65): for each
file ending in `.pptx`, run `_convert_file` and append the produced path
when conversion succeeded. -/
def convertEntry (w : World) (pfx root target_dir : String) :
    List String → ConvState → ConvState
  | [], st => st
  | file :: rest, st =>
    if pyEndswith file ".pptx" then
      let rc := convertFile w pfx root file target_dir
      convertEntry w pfx root target_dir rest
        { st with
          cmds := st.cmds ++ [rc.2]
          converted :=
            match rc.1 with
            | some p => st.converted ++ [p]
            | none => st.converted }
    else convertEntry w pfx root target_dir rest st

/-- The outer loop of `PDFConverter.convert` (src/main.py:56-65): for each
`os.walk` entry, mirror the directory under the destination root, then
process its files. -/
def convertWalk (w : World) (sd dd pfx : String) :
    List (String × List String) → ConvState → ConvState
  | [], st => st
  | (root, files) :: rest, st =>
    let relative_path := relpath root sd
    let target_dir := pyJoin dd relative_path
    let st := { st with fs := makedirs st.fs target_dir }
    convertWalk w sd dd pfx rest (convertEntry w pfx root target_dir files st)

/-- Embedding of `PDFConverter.convert` (src/main.py:49-66). The `walk` argument is the
sequence of `(root, files)` pairs `os.walk(source_dir)` yields; `fs0` the
directories existing beforehand. -/
def convert (w : World) (sd dd pfx : String)
    (walk : List (String × List String)) (fs0 : List String) : ConvState :=
  convertWalk w sd dd pfx walk { fs := fs0, cmds := [], converted := [] }

/-- The `pikepdf.Permissions` record as constructed at src/main.py:119-127:
the seven capabilities the program sets explicitly. -/
structure Permissions where
  extract : Bool
  modify_annotation : Bool
  modify_assembly : Bool
  modify_form : Bool
  modify_other : Bool
  print_highres : Bool
  print_lowres : Bool
deriving DecidableEq, Repr

/-- The `pikepdf.Encryption` record as constructed at src/main.py:117-128.
The source passes no `user` argument; pikepdf's default is the empty
string, i.e. no user/reader password. -/
structure Encryption where
  owner : String
  user : String
  allow : Permissions
deriving DecidableEq, Repr

/-- The observable effect of one `PDFProtector.protect` call: which file
was opened, where it was saved, and with what encryption settings. -/
structure SaveAction where
  openPath : String
  savePath : String
  encryption : Encryption
deriving DecidableEq, Repr

/-- Embedding of `PDFProtector.protect` (src/main.py:109-129): open the PDF at
`pdf_path` (allowing the input to be overwritten) and save it back to the
same path with owner-password encryption and every listed permission
denied. -/
def protect (owner_password pdf_path : String) : SaveAction :=
  { openPath := pdf_path
    savePath := pdf_path
    encryption :=
      { owner := owner_password
        user := ""
        allow :=
          { extract := false
            modify_annotation := false
            modify_assembly := false
            modify_form := false
            modify_other := false
            print_highres := false
            print_lowres := false } } }

/-- A pikepdf open/encrypt/save failure, carrying the offending path. -/
structure PdfError where
  path : String
deriving DecidableEq, Repr

/-- The protection loop of `App.run` (src/main.py:154-155). No try/except
wraps the loop, so the first failing `protect` call aborts it: the
actions performed so far are returned together with the error, and later
list entries are never touched. -/
def protectLoop (w : World) (pw : String) :
    List String → List SaveAction × Option PdfError
  | [] => ([], none)
  | p :: ps =>
    if w.pdfOk p then
      let rest := protectLoop w pw ps
      (protect pw p :: rest.1, rest.2)
    else ([], some ⟨p⟩)

/-- A YAML document as `yaml.safe_load` can return it for this program's
configuration file: the null document (an empty file), a bare scalar, or
a mapping from string keys to string-or-null values. -/
inductive Yaml where
  | null
  | scalar (s : String)
  | mapping (entries : List (String × Option String))
deriving DecidableEq, Repr

/-- A Python runtime error surfaced by the embedding. -/
inductive PyError where
  | attributeError
deriving DecidableEq, Repr

/-- First value bound to `key` in an association list (Python dict lookup;
the loader keeps whatever `yaml.safe_load` produced). -/
def lookupKey : List (String × Option String) → String → Option (Option String)
  | [], _ => none
  | (k, v) :: rest, key => if k = key then some v else lookupKey rest key

/-- Embedding of `Config.get` (src/main.py:25-34): `self.config.get(key)`. When the
loaded document is a mapping this is dict lookup, yielding `none` for an
absent key (and also for a key mapped to null); on any non-mapping
document (e.g. `None` from an empty file) the attribute access `.get`
raises `AttributeError`. `Config.__init__` (src/main.py:16-23) stores the
parse result without validation, so the error only surfaces here. -/
def configGet (config : Yaml) (key : String) : Except PyError (Option String) :=
  match config with
  | .mapping m =>
    .ok (match lookupKey m key with
      | some v => v
      | none => none)
  | _ => .error .attributeError

/-- The observable outcome of one `App.run` (src/main.py:150-155). -/
structure RunResult where
  fs : List String
  cmds : List String
  converted : List String
  protections : List SaveAction
  error : Option PdfError
deriving DecidableEq, Repr

/-- Embedding of `App.run` (src/main.py:150-155): create the destination root
(recursively, idempotently), invoke the converter once, then protect each
converted file in list order. -/
def appRun (w : World) (sd dd pfx pw : String)
    (walk : List (String × List String)) (fs0 : List String) : RunResult :=
  let fs1 := makedirs fs0 dd
  let st := convert w sd dd pfx walk fs1
  let pr := protectLoop w pw st.converted
  { fs := st.fs
    cmds := st.cmds
    converted := st.converted
    protections := pr.1
    error := pr.2 }

/-- A world in which every command exits zero, every file exists and every
PDF opens: the all-success scenario. -/
def happyWorld : World :=
  { exitZero := fun _ => true, isFile := fun _ => true, pdfOk := fun _ => true }

/-- A world in which the conversion command for `/src/b.pptx` exits
non-zero and everything else succeeds. -/
def worldFailB : World :=
  { exitZero := fun c => c != convertCommand "soffice" "/out/." "/src/b.pptx"
    isFile := fun _ => true
    pdfOk := fun _ => true }

/-- A world in which pikepdf fails on `/out/./b.pdf` and everything else
succeeds. -/
def worldBadPdf : World :=
  { exitZero := fun _ => true
    isFile := fun _ => true
    pdfOk := fun p => p != "/out/./b.pdf" }

/-! ### Lemmas about the directory-set model -/

theorem mem_addDir_of_mem {fs : List String} {x d : String} (h : x ∈ fs) :
    x ∈ addDir fs d := by
  unfold addDir
  split
  · exact h
  · exact List.mem_append_left _ h

theorem mem_addDir_self (fs : List String) (d : String) : d ∈ addDir fs d := by
  unfold addDir
  split
  · assumption
  · exact List.mem_append_right _ (List.mem_singleton.mpr rfl)

theorem mem_foldl_addDir_of_mem {l fs : List String} {x : String}
    (h : x ∈ fs) : x ∈ l.foldl addDir fs := by
  induction l generalizing fs with
  | nil => exact h
  | cons d rest ih => exact ih (mem_addDir_of_mem h)

theorem mem_foldl_addDir_of_mem_list {l fs : List String} {x : String}
    (h : x ∈ l) : x ∈ l.foldl addDir fs := by
  induction l generalizing fs with
  | nil => cases h
  | cons d rest ih =>
    rw [List.foldl_cons]
    rcases List.mem_cons.mp h with rfl | h
    · exact mem_foldl_addDir_of_mem (mem_addDir_self fs x)
    · exact ih h

theorem addDir_eq_of_mem {fs : List String} {d : String} (h : d ∈ fs) :
    addDir fs d = fs := by
  unfold addDir
  simp [h]

theorem foldl_addDir_eq_of_forall_mem {l fs : List String}
    (h : ∀ x ∈ l, x ∈ fs) : l.foldl addDir fs = fs := by
  induction l with
  | nil => rfl
  | cons d rest ih =>
    rw [List.foldl_cons, addDir_eq_of_mem (h d (List.mem_cons_self d rest))]
    exact ih (fun x hx => h x (List.mem_cons_of_mem d hx))

theorem mem_makedirs_of_mem {fs : List String} {x p : String} (h : x ∈ fs) :
    x ∈ makedirs fs p :=
  mem_foldl_addDir_of_mem h

theorem mem_makedirs_of_mem_list {fs : List String} {x p : String}
    (h : x ∈ makedirsList p) : x ∈ makedirs fs p :=
  mem_foldl_addDir_of_mem_list h

theorem makedirs_idem (fs : List String) (p : String) :
    makedirs (makedirs fs p) p = makedirs fs p :=
  foldl_addDir_eq_of_forall_mem (fun _ hx => mem_foldl_addDir_of_mem_list hx)

/-! ### Lemmas about the converter -/

theorem convertFile_snd (w : World) (pfx root f td : String) :
    (convertFile w pfx root f td).2 = convertCommand pfx td (pyJoin root f) := rfl

theorem convertFile_eq_some (w : World) (pfx root f td p : String) :
    (convertFile w pfx root f td).1 = some p ↔
      w.exitZero (convertCommand pfx td (pyJoin root f)) = true ∧
      w.isFile (pyJoin td ((splitext f).1 ++ ".pdf")) = true ∧
      p = pyJoin td ((splitext f).1 ++ ".pdf") := by
  unfold convertFile
  by_cases hz : w.exitZero (convertCommand pfx td (pyJoin root f))
  · by_cases hf : w.isFile (pyJoin td ((splitext f).1 ++ ".pdf"))
    · simp [hz, hf, eq_comm]
    · simp [hz, hf]
  · simp [hz]

theorem convertFile_eq_none_of_fail (w : World) (pfx root f td : String)
    (hz : w.exitZero (convertCommand pfx td (pyJoin root f)) = false) :
    (convertFile w pfx root f td).1 = none := by
  unfold convertFile
  simp [hz]

theorem convertEntry_fs (w : World) (pfx root td : String) (files : List String)
    (st : ConvState) : (convertEntry w pfx root td files st).fs = st.fs := by
  induction files generalizing st with
  | nil => rfl
  | cons f rest ih =>
    unfold convertEntry
    split
    · rw [ih]
    · rw [ih]

theorem convertEntry_converted_mem (w : World) (pfx root td : String)
    (files : List String) (st : ConvState) (p : String) :
    p ∈ (convertEntry w pfx root td files st).converted ↔
      p ∈ st.converted ∨ ∃ f ∈ files, pyEndswith f ".pptx" = true ∧
        (convertFile w pfx root f td).1 = some p := by
  induction files generalizing st with
  | nil => simp [convertEntry]
  | cons f rest ih =>
    unfold convertEntry
    by_cases hf : pyEndswith f ".pptx"
    · rw [if_pos hf, ih]
      cases hc : (convertFile w pfx root f td).1 with
      | some q => simp [hc, hf, List.mem_append, List.exists_mem_cons_iff]; tauto
      | none => simp [hc, hf, List.exists_mem_cons_iff]
    · rw [if_neg hf, ih]
      simp only [List.exists_mem_cons_iff]
      have : ¬pyEndswith f ".pptx" = true := hf
      tauto

theorem convertEntry_cmds (w : World) (pfx root td : String) (files : List String)
    (st : ConvState) :
    (convertEntry w pfx root td files st).cmds =
      st.cmds ++ (files.filter (fun f => pyEndswith f ".pptx")).map
        (fun f => convertCommand pfx td (pyJoin root f)) := by
  induction files generalizing st with
  | nil => simp [convertEntry]
  | cons f rest ih =>
    unfold convertEntry
    by_cases hf : pyEndswith f ".pptx"
    · rw [if_pos hf, ih]
      simp [hf, List.filter_cons, convertFile_snd]
    · rw [if_neg hf, ih]
      simp [hf, List.filter_cons]

theorem convertEntry_converted_congr (w : World) (pfx root td : String)
    (files : List String) (st₁ st₂ : ConvState)
    (h : st₁.converted = st₂.converted) :
    (convertEntry w pfx root td files st₁).converted =
    (convertEntry w pfx root td files st₂).converted := by
  induction files generalizing st₁ st₂ with
  | nil => exact h
  | cons f rest ih =>
    unfold convertEntry
    by_cases hf : pyEndswith f ".pptx"
    · rw [if_pos hf, if_pos hf]
      apply ih
      cases hc : (convertFile w pfx root f td).1 <;> simp [hc, h]
    · rw [if_neg hf, if_neg hf]
      exact ih _ _ h

theorem convertWalk_cons (w : World) (sd dd pfx root : String)
    (files : List String) (rest : List (String × List String)) (st : ConvState) :
    convertWalk w sd dd pfx ((root, files) :: rest) st =
      convertWalk w sd dd pfx rest
        (convertEntry w pfx root (pyJoin dd (relpath root sd)) files
          { st with fs := makedirs st.fs (pyJoin dd (relpath root sd)) }) := rfl

theorem convertWalk_fs_mem (w : World) (sd dd pfx : String)
    (walk : List (String × List String)) (st : ConvState) (d : String)
    (h : d ∈ st.fs) : d ∈ (convertWalk w sd dd pfx walk st).fs := by
  induction walk generalizing st with
  | nil => exact h
  | cons e rest ih =>
    obtain ⟨root, files⟩ := e
    rw [convertWalk_cons]
    generalize pyJoin dd (relpath root sd) = td
    apply ih
    rw [convertEntry_fs]
    exact mem_makedirs_of_mem h

theorem convertWalk_fs_entry (w : World) (sd dd pfx : String)
    (walk : List (String × List String)) (st : ConvState)
    (root : String) (files : List String) (hmem : (root, files) ∈ walk)
    (d : String) (hd : d ∈ makedirsList (pyJoin dd (relpath root sd))) :
    d ∈ (convertWalk w sd dd pfx walk st).fs := by
  induction walk generalizing st with
  | nil => cases hmem
  | cons e rest ih =>
    obtain ⟨r, fl⟩ := e
    rcases List.mem_cons.mp hmem with he | he
    · injection he with h1 h2
      subst h1
      subst h2
      rw [convertWalk_cons]
      revert hd
      generalize pyJoin dd (relpath root sd) = td
      intro hd
      apply convertWalk_fs_mem
      rw [convertEntry_fs]
      exact mem_makedirs_of_mem_list hd
    · rw [convertWalk_cons]
      generalize pyJoin dd (relpath r sd) = td
      exact ih _ he

theorem convertWalk_converted_mem (w : World) (sd dd pfx : String)
    (walk : List (String × List String)) (st : ConvState) (p : String) :
    p ∈ (convertWalk w sd dd pfx walk st).converted ↔
      p ∈ st.converted ∨ ∃ root files, (root, files) ∈ walk ∧ ∃ f ∈ files,
        pyEndswith f ".pptx" = true ∧
        (convertFile w pfx root f (pyJoin dd (relpath root sd))).1 = some p := by
  induction walk generalizing st with
  | nil => simp [convertWalk]
  | cons e rest ih =>
    obtain ⟨root, files⟩ := e
    rw [convertWalk_cons, ih, convertEntry_converted_mem]
    simp only [List.mem_cons, Prod.mk.injEq]
    constructor
    · rintro ((h | ⟨f, hfm, hfe, hfc⟩) | ⟨r, fl, hrf, hrest⟩)
      · exact Or.inl h
      · exact Or.inr ⟨root, files, Or.inl ⟨rfl, rfl⟩, f, hfm, hfe, hfc⟩
      · exact Or.inr ⟨r, fl, Or.inr hrf, hrest⟩
    · rintro (h | ⟨r, fl, (⟨rfl, rfl⟩ | hrf), hrest⟩)
      · exact Or.inl (Or.inl h)
      · exact Or.inl (Or.inr hrest)
      · exact Or.inr ⟨r, fl, hrf, hrest⟩

theorem convertWalk_cmds (w : World) (sd dd pfx : String)
    (walk : List (String × List String)) (st : ConvState) :
    (convertWalk w sd dd pfx walk st).cmds =
      st.cmds ++ walk.flatMap (fun e =>
        (e.2.filter (fun f => pyEndswith f ".pptx")).map
          (fun f => convertCommand pfx (pyJoin dd (relpath e.1 sd)) (pyJoin e.1 f))) := by
  induction walk generalizing st with
  | nil => simp [convertWalk]
  | cons e rest ih =>
    obtain ⟨root, files⟩ := e
    rw [convertWalk_cons, ih, convertEntry_cmds]
    simp [List.append_assoc]

theorem convertWalk_converted_congr (w : World) (sd dd pfx : String)
    (walk : List (String × List String)) (st₁ st₂ : ConvState)
    (h : st₁.converted = st₂.converted) :
    (convertWalk w sd dd pfx walk st₁).converted =
    (convertWalk w sd dd pfx walk st₂).converted := by
  induction walk generalizing st₁ st₂ with
  | nil => exact h
  | cons e rest ih =>
    obtain ⟨root, files⟩ := e
    rw [convertWalk_cons, convertWalk_cons]
    generalize pyJoin dd (relpath root sd) = td
    apply ih
    exact convertEntry_converted_congr _ _ _ _ _ _ _ h

/-! ### Lemmas about the protection loop -/

theorem protectLoop_cons_ok (w : World) (pw p : String) (ps : List String)
    (hp : w.pdfOk p = true) :
    protectLoop w pw (p :: ps) =
      (protect pw p :: (protectLoop w pw ps).1, (protectLoop w pw ps).2) := by
  show (if w.pdfOk p = true then
      let rest := protectLoop w pw ps
      (protect pw p :: rest.1, rest.2)
    else ([], some ⟨p⟩)) =
    (protect pw p :: (protectLoop w pw ps).1, (protectLoop w pw ps).2)
  rw [if_pos hp]

theorem protectLoop_cons_fail (w : World) (pw p : String) (ps : List String)
    (hp : w.pdfOk p = false) :
    protectLoop w pw (p :: ps) = ([], some ⟨p⟩) := by
  show (if w.pdfOk p = true then
      let rest := protectLoop w pw ps
      (protect pw p :: rest.1, rest.2)
    else ([], some ⟨p⟩)) = ([], some ⟨p⟩)
  rw [if_neg (by simp [hp])]

theorem protectLoop_all_ok (w : World) (pw : String) (l : List String)
    (h : (protectLoop w pw l).2 = none) :
    (protectLoop w pw l).1 = l.map (protect pw) := by
  induction l with
  | nil => rfl
  | cons p ps ih =>
    by_cases hp : w.pdfOk p
    · rw [protectLoop_cons_ok w pw p ps hp] at h ⊢
      rw [List.map_cons, ih h]
    · rw [protectLoop_cons_fail w pw p ps (by simpa using hp)] at h
      cases h

theorem protectLoop_split_fail (w : World) (pw : String) (l1 : List String)
    (p : String) (l2 : List String)
    (h1 : ∀ q ∈ l1, w.pdfOk q = true) (hp : w.pdfOk p = false) :
    protectLoop w pw (l1 ++ p :: l2) = (l1.map (protect pw), some ⟨p⟩) := by
  induction l1 with
  | nil => simpa using protectLoop_cons_fail w pw p l2 hp
  | cons q qs ih =>
    rw [List.cons_append,
      protectLoop_cons_ok w pw q _ (h1 q (List.mem_cons_self q qs)),
      ih (fun x hx => h1 x (List.mem_cons_of_mem q hx))]
    simp

theorem convertEntry_cons (w : World) (pfx root td f : String)
    (rest : List String) (st : ConvState) :
    convertEntry w pfx root td (f :: rest) st =
      if pyEndswith f ".pptx" then
        convertEntry w pfx root td rest
          { st with
            cmds := st.cmds ++ [(convertFile w pfx root f td).2]
            converted :=
              match (convertFile w pfx root f td).1 with
              | some p => st.converted ++ [p]
              | none => st.converted }
      else convertEntry w pfx root td rest st := rfl

theorem convertEntry_skip_failed (w : World) (pfx root td f : String)
    (hf : pyEndswith f ".pptx" = true)
    (hz : w.exitZero (convertCommand pfx td (pyJoin root f)) = false) :
    ∀ (l1 l2 : List String) (st : ConvState),
      (convertEntry w pfx root td (l1 ++ f :: l2) st).converted =
      (convertEntry w pfx root td (l1 ++ l2) st).converted := by
  intro l1
  induction l1 with
  | nil =>
    intro l2 st
    simp only [List.nil_append]
    rw [convertEntry_cons, if_pos hf, convertFile_eq_none_of_fail w pfx root f td hz]
    exact convertEntry_converted_congr _ _ _ _ _ _ _ rfl
  | cons q qs ih =>
    intro l2 st
    simp only [List.cons_append]
    rw [convertEntry_cons, convertEntry_cons]
    by_cases hq : pyEndswith q ".pptx"
    · rw [if_pos hq, if_pos hq]
      exact ih l2 _
    · rw [if_neg hq, if_neg hq]
      exact ih l2 st

theorem convertWalk_skip_failed (w : World) (sd dd pfx root f : String)
    (l1 l2 : List String)
    (hf : pyEndswith f ".pptx" = true)
    (hz : w.exitZero
      (convertCommand pfx (pyJoin dd (relpath root sd)) (pyJoin root f)) = false) :
    ∀ (pre post : List (String × List String)) (st : ConvState),
      (convertWalk w sd dd pfx (pre ++ (root, l1 ++ f :: l2) :: post) st).converted =
      (convertWalk w sd dd pfx (pre ++ (root, l1 ++ l2) :: post) st).converted := by
  intro pre
  induction pre with
  | nil =>
    intro post st
    simp only [List.nil_append]
    rw [convertWalk_cons, convertWalk_cons]
    revert hz
    generalize pyJoin dd (relpath root sd) = td
    intro hz
    exact convertWalk_converted_congr _ _ _ _ _ _ _
      (convertEntry_skip_failed w pfx root td f hf hz l1 l2 _)
  | cons e pres ih =>
    intro post st
    obtain ⟨r, fl⟩ := e
    simp only [List.cons_append]
    rw [convertWalk_cons, convertWalk_cons]
    generalize pyJoin dd (relpath r sd) = td2
    exact ih post _

theorem convert_converted_provenance (w : World) (sd dd pfx : String)
    (walk : List (String × List String)) (fs0 : List String) (p : String)
    (hp : p ∈ (convert w sd dd pfx walk fs0).converted) :
    ∃ root files f, (root, files) ∈ walk ∧ f ∈ files ∧
      pyEndswith f ".pptx" = true ∧
      w.exitZero (convertCommand pfx (pyJoin dd (relpath root sd)) (pyJoin root f)) = true ∧
      w.isFile (pyJoin (pyJoin dd (relpath root sd)) ((splitext f).1 ++ ".pdf")) = true ∧
      p = pyJoin (pyJoin dd (relpath root sd)) ((splitext f).1 ++ ".pdf") := by
  rw [show convert w sd dd pfx walk fs0 =
      convertWalk w sd dd pfx walk { fs := fs0, cmds := [], converted := [] } from rfl,
    convertWalk_converted_mem] at hp
  rcases hp with h | ⟨root, files, hrf, fl, hfm, hfe, hfc⟩
  · simp at h
  · rw [convertFile_eq_some] at hfc
    obtain ⟨hz, hex, rfl⟩ := hfc
    exact ⟨root, files, fl, hrf, hfm, hfe, hz, hex, rfl⟩

/-! ### Claim theorems -/

/-- C1: a path appears in the converted-file list only if the external
converter process for it exited with status zero AND the expected
destination file exists at the moment of checking; in particular every
listed path is reported present by the filesystem, so a zero exit with the
output absent yields no entry (the existence check dominates the exit
code). -/
theorem convert_only_lists_zero_exit_existing_outputs
    (w : World) (sd dd pfx : String) (walk : List (String × List String))
    (fs0 : List String) (p : String)
    (hp : p ∈ (convert w sd dd pfx walk fs0).converted) :
    w.isFile p = true ∧
    ∃ root files f, (root, files) ∈ walk ∧ f ∈ files ∧
      pyEndswith f ".pptx" = true ∧
      w.exitZero (convertCommand pfx (pyJoin dd (relpath root sd)) (pyJoin root f)) = true ∧
      p = pyJoin (pyJoin dd (relpath root sd)) ((splitext f).1 ++ ".pdf") := by
  obtain ⟨root, files, f, hrf, hfm, hfe, hz, hex, rfl⟩ :=
    convert_converted_provenance w sd dd pfx walk fs0 p hp
  exact ⟨hex, root, files, f, hrf, hfm, hfe, hz, rfl⟩

/-- Concrete run exercising C1 in the all-success world. -/
theorem convert_only_lists_zero_exit_existing_outputs_witness :
    ("/out/./a.pdf" ∈ (convert happyWorld "/src" "/out" "soffice"
        [("/src", ["a.pptx"])] []).converted) ∧
    happyWorld.isFile "/out/./a.pdf" = true :=
  ⟨by decide,
   (convert_only_lists_zero_exit_existing_outputs happyWorld "/src" "/out" "soffice"
      [("/src", ["a.pptx"])] [] "/out/./a.pdf" (by decide)).1⟩

/-- C2: when the external converter for a `.pptx` file exits non-zero, that
file yields no result and contributes nothing to the converted-file list,
and the rest of the run proceeds exactly as if the file were absent
(per-file failure is non-fatal to the run). -/
theorem nonzero_exit_skips_file_and_run_continues
    (w : World) (sd dd pfx root f : String) (l1 l2 : List String)
    (pre post : List (String × List String)) (fs0 : List String)
    (hf : pyEndswith f ".pptx" = true)
    (hz : w.exitZero
      (convertCommand pfx (pyJoin dd (relpath root sd)) (pyJoin root f)) = false) :
    (convertFile w pfx root f (pyJoin dd (relpath root sd))).1 = none ∧
    (convert w sd dd pfx (pre ++ (root, l1 ++ f :: l2) :: post) fs0).converted =
      (convert w sd dd pfx (pre ++ (root, l1 ++ l2) :: post) fs0).converted :=
  ⟨convertFile_eq_none_of_fail w pfx root f _ hz,
   convertWalk_skip_failed w sd dd pfx root f l1 l2 hf hz pre post _⟩

/-- Concrete run exercising C2: `b.pptx` fails to convert; `a` and `c`
are converted exactly as in the run where `b.pptx` does not exist. -/
theorem nonzero_exit_skips_file_and_run_continues_witness :
    pyEndswith "b.pptx" ".pptx" = true ∧
    worldFailB.exitZero (convertCommand "soffice"
      (pyJoin "/out" (relpath "/src" "/src")) (pyJoin "/src" "b.pptx")) = false ∧
    (convert worldFailB "/src" "/out" "soffice"
        [("/src", ["a.pptx", "b.pptx", "c.pptx"])] []).converted =
      (convert worldFailB "/src" "/out" "soffice"
        [("/src", ["a.pptx", "c.pptx"])] []).converted :=
  ⟨by decide, by decide,
   (nonzero_exit_skips_file_and_run_continues worldFailB "/src" "/out" "soffice" "/src"
      "b.pptx" ["a.pptx"] ["c.pptx"] [] [] [] (by decide) (by decide)).2⟩

/-- C3: the converter executes a conversion command exactly for the walked
files whose name ends in `.pptx` (with the mirrored directory as output
location and the source path as input), and every converted path is the
mirrored target directory joined with the source basename whose extension
is replaced by `.pdf` (extension in the `os.path.splitext` sense); files
with any other extension are never converted. -/
theorem convert_attempts_exactly_pptx_files
    (w : World) (sd dd pfx : String) (walk : List (String × List String))
    (fs0 : List String) :
    (convert w sd dd pfx walk fs0).cmds = walk.flatMap (fun e =>
      (e.2.filter (fun f => pyEndswith f ".pptx")).map
        (fun f => convertCommand pfx (pyJoin dd (relpath e.1 sd)) (pyJoin e.1 f))) ∧
    ∀ p ∈ (convert w sd dd pfx walk fs0).converted, ∃ root files f,
      (root, files) ∈ walk ∧ f ∈ files ∧ pyEndswith f ".pptx" = true ∧
      p = pyJoin (pyJoin dd (relpath root sd)) ((splitext f).1 ++ ".pdf") := by
  constructor
  · have h := convertWalk_cmds w sd dd pfx walk
      { fs := fs0, cmds := [], converted := [] }
    simpa using h
  · intro p hp
    obtain ⟨root, files, f, hrf, hfm, hfe, -, -, rfl⟩ :=
      convert_converted_provenance w sd dd pfx walk fs0 p hp
    exact ⟨root, files, f, hrf, hfm, hfe, rfl⟩

/-- Concrete run exercising C3: of `a.pptx` and `notes.txt`, only the
former produces a conversion command, and its destination is the mirrored
directory joined with `a.pdf`. -/
theorem convert_attempts_exactly_pptx_files_witness :
    (convert happyWorld "/src" "/out" "soffice"
        [("/src", ["a.pptx", "notes.txt"])] []).cmds =
      [convertCommand "soffice" "/out/." "/src/a.pptx"] ∧
    (∃ root files f,
      (root, files) ∈ [("/src", ["a.pptx", "notes.txt"])] ∧ f ∈ files ∧
      pyEndswith f ".pptx" = true ∧
      "/out/./a.pdf" = pyJoin (pyJoin "/out" (relpath root "/src"))
        ((splitext f).1 ++ ".pdf")) :=
  ⟨by decide,
   (convert_attempts_exactly_pptx_files happyWorld "/src" "/out" "soffice"
      [("/src", ["a.pptx", "notes.txt"])] []).2 "/out/./a.pdf" (by decide)⟩

/-- C4: for every directory the traversal encounters, the mirrored
directory and all its ancestors exist under the destination root after the
run, regardless of whether the directory contains any matching files; and
the directory creation is idempotent, so rerunning it changes nothing. -/
theorem walked_dirs_are_mirrored_idempotently
    (w : World) (sd dd pfx : String) (walk : List (String × List String))
    (fs0 : List String) (root : String) (files : List String)
    (hmem : (root, files) ∈ walk) :
    (∀ d ∈ makedirsList (pyJoin dd (relpath root sd)),
        d ∈ (convert w sd dd pfx walk fs0).fs) ∧
    ∀ fs p, makedirs (makedirs fs p) p = makedirs fs p :=
  ⟨fun d hd => convertWalk_fs_entry w sd dd pfx walk _ root files hmem d hd,
   makedirs_idem⟩

/-- Concrete run exercising C4: the directory `/src/a` contains no
matching file, yet its mirror `/out/a` (and the ancestor `/out`) exists
after the run. -/
theorem walked_dirs_are_mirrored_idempotently_witness :
    "/out/a" ∈ (convert happyWorld "/src" "/out" "soffice"
      [("/src", ["x.txt"]), ("/src/a", [])] []).fs :=
  (walked_dirs_are_mirrored_idempotently happyWorld "/src" "/out" "soffice"
    [("/src", ["x.txt"]), ("/src/a", [])] [] "/src/a" [] (by decide)).1
    "/out/a" (by decide)

/-- C5: a run first creates the destination root (the converter then
starts from that state), invokes the converter exactly once -- the run's
executed commands and converted list are those of that single invocation
-- and, when no protection error occurs, protects exactly the converted
files, once each, in list order. -/
theorem run_mkdir_then_convert_once_then_protect_in_order
    (w : World) (sd dd pfx pw : String) (walk : List (String × List String))
    (fs0 : List String) :
    (appRun w sd dd pfx pw walk fs0).cmds =
      (convert w sd dd pfx walk (makedirs fs0 dd)).cmds ∧
    (appRun w sd dd pfx pw walk fs0).converted =
      (convert w sd dd pfx walk (makedirs fs0 dd)).converted ∧
    (appRun w sd dd pfx pw walk fs0).fs =
      (convert w sd dd pfx walk (makedirs fs0 dd)).fs ∧
    (∀ d ∈ makedirsList dd, d ∈ (appRun w sd dd pfx pw walk fs0).fs) ∧
    ((appRun w sd dd pfx pw walk fs0).error = none →
      (appRun w sd dd pfx pw walk fs0).protections =
        (appRun w sd dd pfx pw walk fs0).converted.map (protect pw)) := by
  refine ⟨rfl, rfl, rfl, ?_, ?_⟩
  · intro d hd
    show d ∈ (convertWalk w sd dd pfx walk
      { fs := makedirs fs0 dd, cmds := [], converted := [] }).fs
    apply convertWalk_fs_mem
    exact mem_makedirs_of_mem_list hd
  · intro herr
    have h1 : (appRun w sd dd pfx pw walk fs0).protections =
        (protectLoop w pw ((appRun w sd dd pfx pw walk fs0).converted)).1 := rfl
    have h2 : (appRun w sd dd pfx pw walk fs0).error =
        (protectLoop w pw ((appRun w sd dd pfx pw walk fs0).converted)).2 := rfl
    rw [h1, protectLoop_all_ok]
    rw [← h2]
    exact herr

/-- Concrete run exercising C5 in the all-success world. -/
theorem run_mkdir_then_convert_once_then_protect_in_order_witness :
    ((appRun happyWorld "/src" "/out" "soffice" "pw"
        [("/src", ["a.pptx"])] []).error = none) ∧
    ("/out" ∈ (appRun happyWorld "/src" "/out" "soffice" "pw"
        [("/src", ["a.pptx"])] []).fs) ∧
    ((appRun happyWorld "/src" "/out" "soffice" "pw"
        [("/src", ["a.pptx"])] []).protections =
      (appRun happyWorld "/src" "/out" "soffice" "pw"
        [("/src", ["a.pptx"])] []).converted.map (protect "pw")) :=
  ⟨by decide,
   (run_mkdir_then_convert_once_then_protect_in_order happyWorld "/src" "/out"
      "soffice" "pw" [("/src", ["a.pptx"])] []).2.2.2.1 "/out" (by decide),
   (run_mkdir_then_convert_once_then_protect_in_order happyWorld "/src" "/out"
      "soffice" "pw" [("/src", ["a.pptx"])] []).2.2.2.2 (by decide)⟩

/-- C6: a protection failure is not caught per file: if every file before
`p` in the converted list protects fine and `p` fails, the run's
protection actions are exactly those for the files before `p`, the error
propagates out of the loop, and no later file is protected. -/
theorem protection_failure_aborts_remaining (w : World) (sd dd pfx pw : String)
    (walk : List (String × List String)) (fs0 : List String)
    (l1 : List String) (p : String) (l2 : List String)
    (hsplit : (appRun w sd dd pfx pw walk fs0).converted = l1 ++ p :: l2)
    (h1 : ∀ q ∈ l1, w.pdfOk q = true) (hp : w.pdfOk p = false) :
    (appRun w sd dd pfx pw walk fs0).protections = l1.map (protect pw) ∧
    (appRun w sd dd pfx pw walk fs0).error = some ⟨p⟩ := by
  have ha : (appRun w sd dd pfx pw walk fs0).protections =
      (protectLoop w pw ((appRun w sd dd pfx pw walk fs0).converted)).1 := rfl
  have hb : (appRun w sd dd pfx pw walk fs0).error =
      (protectLoop w pw ((appRun w sd dd pfx pw walk fs0).converted)).2 := rfl
  rw [ha, hb, hsplit, protectLoop_split_fail w pw l1 p l2 h1 hp]
  exact ⟨rfl, rfl⟩

/-- Concrete run exercising C6: protecting `/out/./b.pdf` fails, so only
`/out/./a.pdf` is protected and `/out/./c.pdf` is never touched. -/
theorem protection_failure_aborts_remaining_witness :
    ((appRun worldBadPdf "/src" "/out" "soffice" "pw"
        [("/src", ["a.pptx", "b.pptx", "c.pptx"])] []).protections =
      ["/out/./a.pdf"].map (protect "pw")) ∧
    ((appRun worldBadPdf "/src" "/out" "soffice" "pw"
        [("/src", ["a.pptx", "b.pptx", "c.pptx"])] []).error =
      some ⟨"/out/./b.pdf"⟩) :=
  protection_failure_aborts_remaining worldBadPdf "/src" "/out" "soffice" "pw"
    [("/src", ["a.pptx", "b.pptx", "c.pptx"])] []
    ["/out/./a.pdf"] "/out/./b.pdf" ["/out/./c.pdf"]
    (by decide) (by decide) (by decide)

/-- C7: protect opens and saves at the same path (in-place rewrite), uses
the configured owner password, sets no user/reader password, and applies
the fixed permission record denying extract, modify-annotation,
modify-assembly, modify-form, modify-other, print-high-res and
print-low-res; the permission set is hard-coded and identical for every
protected file. -/
theorem protect_rewrites_in_place_with_fixed_policy (pw p : String) :
    (protect pw p).openPath = p ∧
    (protect pw p).savePath = p ∧
    (protect pw p).encryption.owner = pw ∧
    (protect pw p).encryption.user = "" ∧
    (protect pw p).encryption.allow =
      { extract := false, modify_annotation := false, modify_assembly := false,
        modify_form := false, modify_other := false, print_highres := false,
        print_lowres := false } ∧
    (∀ pw2 q, (protect pw2 q).encryption.allow = (protect pw p).encryption.allow) :=
  ⟨rfl, rfl, rfl, rfl, rfl, fun _ _ => rfl⟩

/-- C8: looking up a key that is not present in the loaded configuration
mapping returns the absent value rather than raising; no validation
happens at load or lookup time, so the failure is deferred to the point
of use. -/
theorem config_get_absent_key_returns_none
    (m : List (String × Option String)) (key : String)
    (h : lookupKey m key = none) :
    configGet (Yaml.mapping m) key = .ok none := by
  show Except.ok (match lookupKey m key with
    | some v => v
    | none => none) = Except.ok none
  rw [h]

/-- Concrete lookup exercising C8: `owner_password` is missing from a
mapping holding only `source_dir`. -/
theorem config_get_absent_key_returns_none_witness :
    lookupKey [("source_dir", some "/src")] "owner_password" = none ∧
    configGet (Yaml.mapping [("source_dir", some "/src")]) "owner_password" =
      .ok none :=
  ⟨by decide,
   config_get_absent_key_returns_none [("source_dir", some "/src")]
     "owner_password" (by decide)⟩

/-- C9: the extension match is case-sensitive: a file name built from any
case variant of `.pptx` other than `.pptx` itself does not pass the
suffix test, so no conversion command is executed for it and it
contributes nothing to the converted-file list. -/
theorem extension_match_is_case_sensitive (base ext : String)
    (hlow : ext.data.map Char.toLower = (".pptx" : String).data)
    (hne : ext ≠ ".pptx")
    (w : World) (sd dd pfx root : String) (fs0 : List String) :
    pyEndswith (base ++ ext) ".pptx" = false ∧
    (convert w sd dd pfx [(root, [base ++ ext])] fs0).cmds = [] ∧
    (convert w sd dd pfx [(root, [base ++ ext])] fs0).converted = [] := by
  have hend : pyEndswith (base ++ ext) ".pptx" = false := by
    by_contra hcon
    rw [Bool.not_eq_false] at hcon
    have hsuf : (".pptx" : String).data <:+ (base ++ ext).data :=
      List.isSuffixOf_iff_suffix.mp hcon
    rw [String.data_append] at hsuf
    obtain ⟨t, ht⟩ := hsuf
    have hlen : ext.data.length = (".pptx" : String).data.length := by
      rw [← hlow, List.length_map]
    have hlen2 : t.length = base.data.length := by
      have hl := congrArg List.length ht
      rw [List.length_append, List.length_append] at hl
      omega
    obtain ⟨-, h2⟩ := List.append_inj ht hlen2
    exact hne (String.ext h2.symm)
  have hconv : convert w sd dd pfx [(root, [base ++ ext])] fs0 =
      { fs := makedirs fs0 (pyJoin dd (relpath root sd)), cmds := [],
        converted := [] } := by
    rw [show convert w sd dd pfx [(root, [base ++ ext])] fs0 =
        convertWalk w sd dd pfx [(root, [base ++ ext])]
          { fs := fs0, cmds := [], converted := [] } from rfl,
      convertWalk_cons]
    generalize pyJoin dd (relpath root sd) = td
    rw [convertEntry_cons, if_neg (by simp [hend])]
    rfl
  exact ⟨hend, by rw [hconv], by rw [hconv]⟩

/-- Concrete run exercising C9: `Deck.PPTX` is a case variant of the
presentation extension, is not matched, and produces no command and no
result. -/
theorem extension_match_is_case_sensitive_witness :
    ((".PPTX" : String).data.map Char.toLower = (".pptx" : String).data) ∧
    (".PPTX" : String) ≠ ".pptx" ∧
    pyEndswith ("Deck" ++ ".PPTX") ".pptx" = false ∧
    (convert happyWorld "/src" "/out" "soffice"
      [("/src", ["Deck" ++ ".PPTX"])] []).converted = [] :=
  ⟨by decide, by decide,
   (extension_match_is_case_sensitive "Deck" ".PPTX" (by decide) (by decide)
      happyWorld "/src" "/out" "soffice" "/src" []).1,
   (extension_match_is_case_sensitive "Deck" ".PPTX" (by decide) (by decide)
      happyWorld "/src" "/out" "soffice" "/src" []).2.2⟩

/-- C10: when the parsed configuration document is not a mapping (for
example the null document an empty YAML file parses to), every call to
the loader's get raises an AttributeError instead of returning an absent
value; the absent-key-yields-absent-value behaviour only holds for
mapping documents. -/
theorem config_get_raises_on_non_mapping (cfg : Yaml)
    (h : ∀ m, cfg ≠ Yaml.mapping m) (key : String) :
    configGet cfg key = .error PyError.attributeError := by
  cases cfg with
  | null => rfl
  | scalar s => rfl
  | mapping m => exact absurd rfl (h m)

/-- Concrete lookup exercising C10: the null document raises on get. -/
theorem config_get_raises_on_non_mapping_witness :
    configGet Yaml.null "source_dir" = .error PyError.attributeError :=
  config_get_raises_on_non_mapping Yaml.null (fun _ h => Yaml.noConfusion h)
    "source_dir"
